import Mathlib

/-!
# Verification of the UniConvert backend conversion relay

Shallow embedding of the `/convertFile` request handler of
`src/Backend/api/index.js` (Express + axios + multer + CloudConvert).

The handler is embedded as a pure function from a request and an
environment (the behaviour of the external CloudConvert provider and of
the deployment configuration) to the list of observable events it
performs, in order: provider calls, deletions of the staged temporary
file, HTTP responses emitted to the caller, response headers, and the
start of the result pipe.

JSON-ish provider payloads are embedded as nested `Option` structures:
`none` stands for an absent / `null` / non-object field (JavaScript
optional chaining and truthiness are modelled explicitly).  A `null` or
non-object HTTP body is collapsed into a body whose `data` field is
`none`; every access the handler performs treats the two identically.

Express response semantics: `res.status(..).json(..)` places a response
on the wire only when response headers have not yet been sent (after
headers are sent, Node raises `ERR_HTTP_HEADERS_SENT` and nothing further
reaches the caller); headers are sent once the result pipe has written
to the socket.  The stream-error branch of the embedding reflects this.
-/

/-- JavaScript truthiness of a possibly-absent string (`undefined`,
`null` and `""` are falsy). -/
def jsTruthy : Option String → Bool
  | some s => !(s == "")
  | none => false

/-- JavaScript `a || b` for a possibly-absent string `a` with default `b`. -/
def jsOr (o : Option String) (d : String) : String :=
  match o with
  | some s => if s == "" then d else s
  | none => d

/-- One entry of `exportTask.result.files`. -/
structure FileEntry where
  url : Option String
  mime : Option String
deriving Repr, DecidableEq

/-- The `result.form` object of the upload-intake task. -/
structure FormInfo where
  url : Option String
  /-- The keys of the `parameters` object; `none` models an absent,
  `null` or non-object value. -/
  parameters : Option (List String)
deriving Repr, DecidableEq

/-- The `result` object of a CloudConvert task. -/
structure TaskResult where
  form : Option FormInfo
  files : Option (List FileEntry)
deriving Repr, DecidableEq

/-- A CloudConvert task as observed in a job-status payload. -/
structure CCTask where
  name : String
  result : Option TaskResult
deriving Repr, DecidableEq

/-- The `data` object of a CloudConvert job payload. -/
structure JobData where
  id : Option String
  status : Option String
  message : Option String
  tasks : Option (List CCTask)
deriving Repr, DecidableEq

/-- An HTTP body returned by the provider (`resp.data` in axios).  A
`null` or non-object body is collapsed into `data = none`. -/
structure Body where
  data : Option JobData
deriving Repr, DecidableEq

/-- A thrown error as observed by `catch (cloudConvertApiError)`:
`respMsg` models `error.response?.data?.message`, `msg` models
`error.message`. -/
structure ApiErr where
  respMsg : Option String
  msg : String
deriving Repr, DecidableEq

/-- Outcome of piping the downloaded artifact stream to the caller.
`errors headersSent m`: the stream raised `m`, with `headersSent`
recording whether response headers had already reached the wire. -/
inductive StreamOutcome where
  | ends
  | errors (headersSent : Bool) (msg : String)
deriving Repr, DecidableEq

/-- A staged upload (`req.file` after multer). -/
structure StagedFile where
  path : String
  originalname : String
  mimetype : String
deriving Repr, DecidableEq

/-- The incoming request as seen from line 60 of `index.js` onward. -/
structure Req where
  file : Option StagedFile
  outputFormat : Option String
deriving Repr, DecidableEq

/-- The environment of one request: deployment configuration and the
responses of the external provider, per call site.  The two polling
call sites hit the same `GET /v2/jobs/:id` endpoint; they are indexed
separately here by attempt number (0-based). -/
structure Env where
  apiKey : Option String
  createJob : Except ApiErr Body
  uploadPollResp : Nat → Except ApiErr Body
  uploadPostResp : Except ApiErr Unit
  completionPollResp : Nat → Except ApiErr Body
  downloadResp : Except ApiErr StreamOutcome

/-- Which outgoing provider call a `call` event records.  `createJob`
carries the fields of the submitted task graph that the claims refer
to. -/
inductive CallKind where
  | createJob (filename inputFormat outputFormat : String)
  | uploadPoll
  | uploadPost
  | completionPoll
  | download
deriving Repr, DecidableEq

/-- Observable events of one request, in program order. -/
inductive Ev where
  | sleep (ms : Nat)
  | call (k : CallKind)
  | unlink (path : String)
  | respond (status : Nat) (message : String)
  | setHeader (name value : String)
  | pipeStart
deriving Repr, DecidableEq

/-- Events of one iteration of the upload-target poll (1 s sleep, then
`GET /v2/jobs/:id`). -/
def uploadBlk : List Ev := [Ev.sleep 1000, Ev.call CallKind.uploadPoll]

/-- Events of one iteration of the completion poll (5 s sleep, then
`GET /v2/jobs/:id`). -/
def completionBlk : List Ev := [Ev.sleep 5000, Ev.call CallKind.completionPoll]

/-- `currentJobStatusResponse.data?.data?.tasks?.find(t => t.name === "upload-file")`. -/
def findUploadTask (b : Body) : Option CCTask :=
  match b.data with
  | some jd =>
    match jd.tasks with
    | some ts => ts.find? (fun t => t.name == ("upload-file"))
    | none => none
  | none => none

/-- `typeof task.result?.form?.url === "string" && task.result.form.url.length > 0`. -/
def hasUrlB (t : CCTask) : Bool :=
  match t.result with
  | some r =>
    match r.form with
    | some fo =>
      match fo.url with
      | some u => u.length != 0
      | none => false
    | none => false
  | none => false

/-- `typeof params === "object" && params !== null && Object.keys(params).length > 0`
for `params = task.result?.form?.parameters`. -/
def hasParamsB (t : CCTask) : Bool :=
  match t.result with
  | some r =>
    match r.form with
    | some fo =>
      match fo.parameters with
      | some ps => ps.length != 0
      | none => false
    | none => false
  | none => false

/-- A poll body from which the upload loop exits with a task. -/
def readyB (b : Body) : Bool :=
  match findUploadTask b with
  | some t => hasUrlB t && hasParamsB t
  | none => false

/-- The upload-target polling loop (`index.js` lines 122-153), with
`fuel` the remaining attempt budget (initially 120) and `i` the
0-based index of the next attempt.  Returns the emitted events and
either the thrown axios error or the `uploadTask` variable after the
loop. -/
def uploadLoop (env : Env) : Nat → Nat → List Ev × Except ApiErr (Option CCTask)
  | 0, _ => ([], Except.ok none)
  | fuel+1, i =>
    match env.uploadPollResp i with
    | Except.error e => (uploadBlk, Except.error e)
    | Except.ok b =>
      match findUploadTask b with
      | some t =>
        if hasUrlB t && hasParamsB t then
          (uploadBlk, Except.ok (some t))
        else
          let r := uploadLoop env fuel (i+1)
          (uploadBlk ++ r.1, r.2)
      | none =>
        let r := uploadLoop env fuel (i+1)
        (uploadBlk ++ r.1, r.2)

/-- A completion-poll body that is neither `finished` nor `error`
(including bodies with no job object at all): the loop keeps polling. -/
def nonTerminal (b : Body) : Bool :=
  match b.data with
  | some jd => !(jd.status == some ("finished")) && !(jd.status == some ("error"))
  | none => true

/-- Message of the error thrown on an explicit provider job error
(`index.js` line 203). -/
def jobFailMsg (jid m : String) : String :=
  ("CloudConvert Job ") ++ jid ++ (" failed: ") ++ m

/-- The completion polling loop (`index.js` lines 186-207), with `fuel`
the remaining attempt budget (initially 90), `i` the 0-based index of
the next attempt and `last` the `jobStatusResponse` variable.  Returns
the emitted events and either the thrown error (axios failure, or the
`Error` thrown on provider status `error`) or the final
`jobStatusResponse`. -/
def completionLoop (env : Env) (jid : String) :
    Nat → Nat → Option Body → List Ev × Except ApiErr (Option Body)
  | 0, _, last => ([], Except.ok last)
  | fuel+1, i, _ =>
    match env.completionPollResp i with
    | Except.error e => (completionBlk, Except.error e)
    | Except.ok b =>
      match b.data with
      | some jd =>
        if jd.status == some ("finished") then
          (completionBlk, Except.ok (some b))
        else if jd.status == some ("error") then
          (completionBlk, Except.error
            { respMsg := none
              msg := jobFailMsg jid
                (jsOr jd.message ("CloudConvert job failed with unknown error.")) })
        else
          let r := completionLoop env jid fuel (i+1) (some b)
          (completionBlk ++ r.1, r.2)
      | none =>
        let r := completionLoop env jid fuel (i+1) (some b)
        (completionBlk ++ r.1, r.2)

/-- `t.name === "export-file" && t.result && t.result.files && t.result.files.length > 0`. -/
def exportFindPred (t : CCTask) : Bool :=
  t.name == ("export-file") &&
    (match t.result with
     | some r =>
       match r.files with
       | some fs => fs.length != 0
       | none => false
     | none => false)

/-- `exportTask.result.files[0]` (absent when out of range). -/
def firstFile (t : CCTask) : Option FileEntry :=
  match t.result with
  | some r =>
    match r.files with
    | some (f :: _) => some f
    | some [] => none
    | none => none
  | none => none

/-- `resp.data && resp.data.data && resp.data.data.id` truthiness
(`index.js` line 109). -/
def jobIdTruthy (b : Body) : Bool :=
  match b.data with
  | some jd => jsTruthy jd.id
  | none => false

/-- `resp.data.data.id` on the valid path. -/
def jobIdOf (b : Body) : String :=
  match b.data with
  | some jd => jd.id.getD ""
  | none => ""

/-- The post-loop check on `uploadTask` (`index.js` line 155):
`!uploadTask || !uploadTask.result || !uploadTask.result.form ||
!uploadTask.result.form.url || !uploadTask.result.form.parameters`,
negated (this returns `true` when the task is usable).  Note a present
`parameters` object is truthy even when empty. -/
def uploadTaskValid : Option CCTask → Bool
  | some t =>
    (match t.result with
     | some r =>
       match r.form with
       | some fo => jsTruthy fo.url && fo.parameters.isSome
       | none => false
     | none => false)
  | none => false

/-- 500 message when the job never reaches `finished` (`index.js` line 212). -/
def timeoutMsg : String := "File conversion timed out or failed on CloudConvert."

/-- 500 message when the finished job has no retrievable artifact. -/
def noArtifactMsg : String := "Could not retrieve converted file URL from CloudConvert."

/-- 500 message of the stream-error branch. -/
def streamErrMsg : String := "Error streaming converted file to client."

/-- 500 message when the upload-target poll budget is exhausted. -/
def uploadUrlMsg : String :=
  "Failed to get CloudConvert upload URL after multiple attempts. Please try again or check CloudConvert status."

/-- 500 message when job creation returns no id. -/
def invalidJobMsg : String := "CloudConvert job creation failed or returned an invalid response."

/-- 500 message when the provider credential is missing. -/
def keyMissingMsg : String := "Server configuration error: CloudConvert API key missing."

/-- `error.message` of the TypeError raised by
`jobStatusResponse.data.data.status` when the final poll body holds no
job object (V8 text, quotes elided). -/
def typeErrStatusMsg : String := "Cannot read properties of undefined (reading status)"

/-- `error.message` of the TypeError raised by
`jobStatusResponse.data.data.tasks.find(..)` when `tasks` is absent. -/
def typeErrFindMsg : String := "Cannot read properties of undefined (reading find)"

/-- Lines 229-245: download the artifact as a stream, set the two
response headers, pipe, and handle the stream outcome.  On a stream
error the staged file is deleted and a 500 is emitted only when
response headers have not yet been sent (Express refuses to write
after headers are sent). -/
def streamPhase (env : Env) (path stem ofmt : String) (f0 : FileEntry) :
    List Ev × Option ApiErr :=
  match env.downloadResp with
  | Except.error e => ([Ev.call CallKind.download], some e)
  | Except.ok so =>
    let hs : List Ev :=
      [Ev.call CallKind.download,
       Ev.setHeader ("Content-Type") (jsOr f0.mime (("application/") ++ ofmt)),
       Ev.setHeader ("Content-Disposition")
         (("attachment; filename=\"") ++ stem ++ (".") ++ ofmt ++ ("\"")),
       Ev.pipeStart]
    match so with
    | StreamOutcome.ends => (hs ++ [Ev.unlink path], none)
    | StreamOutcome.errors hSent _ =>
      (hs ++ [Ev.unlink path] ++
        (if hSent then [] else [Ev.respond 500 streamErrMsg]), none)

/-- Lines 181-245: the completion poll, the post-loop `finished` check,
export-task resolution and the result stream.  The second component is
the exception (if any) escaping to `catch (cloudConvertApiError)`. -/
def completionPhase (env : Env) (jid path stem ofmt : String) :
    List Ev × Option ApiErr :=
  let c := completionLoop env jid 90 0 none
  match c.2 with
  | Except.error e => (c.1, some e)
  | Except.ok last =>
    match last with
    | none => (c.1 ++ [Ev.unlink path, Ev.respond 500 timeoutMsg], none)
    | some b =>
      match b.data with
      | none => (c.1, some { respMsg := none, msg := typeErrStatusMsg })
      | some jd =>
        if !(jd.status == some ("finished")) then
          (c.1 ++ [Ev.unlink path, Ev.respond 500 timeoutMsg], none)
        else
          match jd.tasks with
          | none => (c.1, some { respMsg := none, msg := typeErrFindMsg })
          | some ts =>
            match ts.find? exportFindPred with
            | none => (c.1 ++ [Ev.unlink path, Ev.respond 500 noArtifactMsg], none)
            | some t =>
              match firstFile t with
              | none => (c.1 ++ [Ev.unlink path, Ev.respond 500 noArtifactMsg], none)
              | some f0 =>
                if !(jsTruthy f0.url) then
                  (c.1 ++ [Ev.unlink path, Ev.respond 500 noArtifactMsg], none)
                else
                  let s := streamPhase env path stem ofmt f0
                  (c.1 ++ s.1, s.2)

/-- State of the character scan shared by Node's `path.extname` and
`path.parse` (posix): `startDot`, `startPart`, `endIdx` (`end` in the
Node source), `matchedSlash`, `preDotState`, with `none` for the `-1`
sentinels of the index variables. -/
structure ExtSt where
  startDot : Option Nat
  startPart : Nat
  endIdx : Option Nat
  matchedSlash : Bool
  preDotState : Int
deriving Repr, DecidableEq

/-- The scan loop of Node's posix `path.extname`, transliterated: it
walks the characters right to left, so it is given the reversed
character list together with the original index `i` of the current
head character.  A `/` met after a non-separator ends the scan
(`break` in the source). -/
def extGo : List Char → Nat → ExtSt → ExtSt
  | [], _, st => st
  | c :: cs, i, st =>
    if c == ('/' : Char) then
      if st.matchedSlash == false then { st with startPart := i + 1 }
      else extGo cs (i - 1) st
    else
      let st1 :=
        if st.endIdx == none then
          { st with matchedSlash := false, endIdx := some (i + 1) }
        else st
      let st2 :=
        if c == ('.' : Char) then
          if st1.startDot == none then { st1 with startDot := some i }
          else if !(st1.preDotState == 1) then { st1 with preDotState := 1 }
          else st1
        else
          if !(st1.startDot == none) then { st1 with preDotState := -1 }
          else st1
      extGo cs (i - 1) st2

/-- Run the scan over a whole character list. -/
def extScan (s : List Char) : ExtSt :=
  extGo s.reverse (s.length - 1)
    { startDot := none, startPart := 0, endIdx := none, matchedSlash := true, preDotState := 0 }

/-- Whether the scan result denotes "no extension" (the four-way
disjunction of the Node source, covering no dot, a basename whose only
dot is its leading character, and a basename of `..`). -/
def extNoneCond (st : ExtSt) (d e : Nat) : Bool :=
  st.preDotState == 0 ||
    (st.preDotState == 1 && d == e - 1 && d == st.startPart + 1)

/-- Node `path.extname` (posix) over a character list: the extension
including its leading dot, or `[]`. -/
def extnameL (s : List Char) : List Char :=
  let st := extScan s
  match st.startDot, st.endIdx with
  | some d, some e =>
    if extNoneCond st d e then [] else (s.drop d).take (e - d)
  | some _, none => []
  | none, _ => []

/-- Node `path.parse(..).name` (posix) over a character list: the
basename without its extension. -/
def parseNameL (s : List Char) : List Char :=
  let st := extScan s
  match st.endIdx with
  | none => []
  | some e =>
    match st.startDot with
    | some d =>
      if extNoneCond st d e then (s.drop st.startPart).take (e - st.startPart)
      else (s.drop st.startPart).take (d - st.startPart)
    | none => (s.drop st.startPart).take (e - st.startPart)

/-- `path.extname(originalFileName).substring(1)` (`index.js` line 73):
the `input_format` field sent in the job-creation request. -/
def inputFormatOf (s : String) : String :=
  String.mk ((extnameL s.data).drop 1)

/-- `path.parse(originalFileName).name` (`index.js` line 74). -/
def parseNameOf (s : String) : String :=
  String.mk (parseNameL s.data)

/-- Modelled from the claim's words (for comparison with the code's
`inputFormatOf`): the substring of the filename after its last dot,
empty when the filename contains no dot. -/
def specAfterLastDot (s : String) : String :=
  if ('.' : Char) ∈ s.data then
    String.mk ((s.data.reverse.takeWhile (fun c => !(c == ('.' : Char)))).reverse)
  else ""

/-- The message of the 500 produced by `catch (cloudConvertApiError)`:
`error.response?.data?.message || error.message`, prefixed. -/
def catchMsg (e : ApiErr) : String :=
  ("Conversion service error: ") ++ jsOr e.respMsg e.msg

/-- `catch (cloudConvertApiError)` (lines 247-256): best-effort unlink
of the staged file, then a 500 carrying the error message. -/
def catchWrap (path : String) (r : List Ev × Option ApiErr) : List Ev :=
  match r.2 with
  | some e => r.1 ++ [Ev.unlink path, Ev.respond 500 (catchMsg e)]
  | none => r.1

/-- Lines 84-245 (the inner `try` body): job creation and its id check,
the upload-target poll and its post-loop check, the file push, then
`completionPhase`.  Returns the emitted events and the exception (if
any) escaping to the inner `catch`. -/
def innerBody (env : Env) (f : StagedFile) (ofmt : String) :
    List Ev × Option ApiErr :=
  let evCreate := Ev.call
    (CallKind.createJob f.originalname (inputFormatOf f.originalname) ofmt)
  match env.createJob with
  | Except.error e => ([evCreate], some e)
  | Except.ok body =>
    if !(jobIdTruthy body) then
      ([evCreate, Ev.unlink f.path, Ev.respond 500 invalidJobMsg], none)
    else
      let r := uploadLoop env 120 0
      match r.2 with
      | Except.error e => (evCreate :: r.1, some e)
      | Except.ok ut =>
        if !(uploadTaskValid ut) then
          (evCreate :: (r.1 ++ [Ev.unlink f.path, Ev.respond 500 uploadUrlMsg]), none)
        else
          match env.uploadPostResp with
          | Except.error e => (evCreate :: (r.1 ++ [Ev.call CallKind.uploadPost]), some e)
          | Except.ok _ =>
            let c := completionPhase env (jobIdOf body) f.path
              (parseNameOf f.originalname) ofmt
            (evCreate :: (r.1 ++ [Ev.call CallKind.uploadPost] ++ c.1), c.2)

/-- The `/convertFile` handler from line 60 of `index.js` onward (the
staged file, if any, has already been written by multer): the missing
file and missing `outputFormat` rejections, the credential check, then
the inner `try`/`catch`. -/
def convertFile (req : Req) (env : Env) : List Ev :=
  match req.file with
  | none => [Ev.respond 400 ("No file uploaded.")]
  | some f =>
    if !(jsTruthy req.outputFormat) then
      [Ev.unlink f.path, Ev.respond 400 ("Output format is required.")]
    else if !(jsTruthy env.apiKey) then
      [Ev.unlink f.path, Ev.respond 500 keyMissingMsg]
    else
      catchWrap f.path (innerBody env f (req.outputFormat.getD ""))

/-- Count the events satisfying `p`. -/
def countE (p : Ev → Bool) (l : List Ev) : Nat :=
  l.countP p

/-- Is this event a deletion of the staged file at `path`? -/
def isUnlinkOf (path : String) : Ev → Bool
  | Ev.unlink p => p == path
  | _ => false

/-- Is this event an outgoing provider call? -/
def isCallEv : Ev → Bool
  | Ev.call _ => true
  | _ => false

lemma countE_append (p : Ev → Bool) (a b : List Ev) :
    countE p (a ++ b) = countE p a + countE p b := by
  simp [countE, List.countP_append]

lemma countE_uploadBlk_unlink (path : String) :
    countE (isUnlinkOf path) uploadBlk = 0 := rfl

lemma countE_completionBlk_unlink (path : String) :
    countE (isUnlinkOf path) completionBlk = 0 := rfl

/-- The upload-target poll emits no deletions. -/
lemma uploadLoop_count_unlink (env : Env) (path : String) :
    ∀ fuel i, countE (isUnlinkOf path) (uploadLoop env fuel i).1 = 0 := by
  intro fuel
  induction fuel with
  | zero => intro i; rfl
  | succ n ih =>
    intro i
    unfold uploadLoop
    cases henv : env.uploadPollResp i with
    | error e => exact countE_uploadBlk_unlink path
    | ok b =>
      cases hft : findUploadTask b with
      | none =>
        simp only [hft, countE_append, ih, countE_uploadBlk_unlink]
      | some t =>
        simp only [hft]
        by_cases hr : (hasUrlB t && hasParamsB t) = true
        · simp only [hr, if_true]
          exact countE_uploadBlk_unlink path
        · simp [hr, countE_append, ih, countE_uploadBlk_unlink]

/-- The completion poll emits no deletions. -/
lemma completionLoop_count_unlink (env : Env) (jid path : String) :
    ∀ fuel i last, countE (isUnlinkOf path) (completionLoop env jid fuel i last).1 = 0 := by
  intro fuel
  induction fuel with
  | zero => intro i last; rfl
  | succ n ih =>
    intro i last
    unfold completionLoop
    cases henv : env.completionPollResp i with
    | error e => exact countE_completionBlk_unlink path
    | ok b =>
      cases hd : b.data with
      | none => simp only [hd, countE_append, ih, countE_completionBlk_unlink]
      | some jd =>
        simp only [hd]
        by_cases h1 : (jd.status == some ("finished")) = true
        · simp only [h1, if_true]
          exact countE_completionBlk_unlink path
        · by_cases h2 : (jd.status == some ("error")) = true
          · simp only [h1, h2, if_false, if_true]
            exact countE_completionBlk_unlink path
          · simp [h1, h2, countE_append, ih, countE_completionBlk_unlink]

lemma countE_cons (p : Ev → Bool) (e : Ev) (l : List Ev) :
    countE p (e :: l) = countE p l + (if p e then 1 else 0) := by
  simp [countE, List.countP_cons]

lemma countE_singleton (p : Ev → Bool) (e : Ev) :
    countE p [e] = if p e then 1 else 0 := by
  simp [countE, List.countP_cons]

lemma countE_unlink_tail (path msg : String) (st : Nat) :
    countE (isUnlinkOf path) [Ev.unlink path, Ev.respond st msg] = 1 := by
  simp [countE, isUnlinkOf, List.countP_cons]

/-- The stream phase deletes the staged file exactly once when it
terminates the request itself, and never when it raises. -/
lemma streamPhase_unlinks (env : Env) (path stem ofmt : String) (f0 : FileEntry) :
    ((streamPhase env path stem ofmt f0).2.isSome →
      countE (isUnlinkOf path) (streamPhase env path stem ofmt f0).1 = 0) ∧
    ((streamPhase env path stem ofmt f0).2 = none →
      countE (isUnlinkOf path) (streamPhase env path stem ofmt f0).1 = 1) := by
  unfold streamPhase
  cases env.downloadResp with
  | error e =>
    refine ⟨fun _ => rfl, fun h => by simp at h⟩
  | ok so =>
    cases so with
    | ends =>
      refine ⟨fun h => by simp at h, fun _ => ?_⟩
      simp [countE, isUnlinkOf, List.countP_cons]
    | errors hSent m =>
      cases hSent with
      | true =>
        refine ⟨fun h => by simp at h, fun _ => ?_⟩
        simp [countE, isUnlinkOf, List.countP_cons]
      | false =>
        refine ⟨fun h => by simp at h, fun _ => ?_⟩
        simp [countE, isUnlinkOf, List.countP_cons]

/-- The completion phase deletes the staged file exactly once when it
terminates the request itself, and never when it raises. -/
lemma completionPhase_unlinks (env : Env) (jid path stem ofmt : String) :
    ((completionPhase env jid path stem ofmt).2.isSome →
      countE (isUnlinkOf path) (completionPhase env jid path stem ofmt).1 = 0) ∧
    ((completionPhase env jid path stem ofmt).2 = none →
      countE (isUnlinkOf path) (completionPhase env jid path stem ofmt).1 = 1) := by
  unfold completionPhase
  have hloop := completionLoop_count_unlink env jid path 90 0 none
  cases hc : (completionLoop env jid 90 0 none).2 with
  | error e =>
    simp only [hc]
    exact ⟨fun _ => hloop, fun h => by simp at h⟩
  | ok last =>
    simp only [hc]
    cases last with
    | none =>
      refine ⟨fun h => by simp at h, fun _ => ?_⟩
      rw [countE_append, hloop, countE_unlink_tail]
    | some b =>
      cases hd : b.data with
      | none =>
        simp only [hd]
        exact ⟨fun _ => hloop, fun h => by simp at h⟩
      | some jd =>
        simp only [hd]
        by_cases h1 : (jd.status == some ("finished")) = true
        · simp only [h1, Bool.not_true, Bool.false_eq_true, if_false]
          cases ht : jd.tasks with
          | none =>
            simp only [ht]
            exact ⟨fun _ => hloop, fun h => by simp at h⟩
          | some ts =>
            simp only [ht]
            cases hfind : ts.find? exportFindPred with
            | none =>
              simp only [hfind]
              refine ⟨fun h => by simp at h, fun _ => ?_⟩
              rw [countE_append, hloop, countE_unlink_tail]
            | some t =>
              simp only [hfind]
              cases hff : firstFile t with
              | none =>
                simp only [hff]
                refine ⟨fun h => by simp at h, fun _ => ?_⟩
                rw [countE_append, hloop, countE_unlink_tail]
              | some f0 =>
                simp only [hff]
                by_cases hu : jsTruthy f0.url = true
                · simp only [hu, Bool.not_true, Bool.false_eq_true, if_false]
                  have hs := streamPhase_unlinks env path stem ofmt f0
                  cases hsp : (streamPhase env path stem ofmt f0).2 with
                  | some e =>
                    try simp only [hsp]
                    refine ⟨fun _ => ?_, fun h => by simp at h⟩
                    have h0 := hs.1 (by rw [hsp]; rfl)
                    rw [countE_append, hloop, h0]
                  | none =>
                    simp only [hsp]
                    refine ⟨fun h => by simp at h, fun _ => ?_⟩
                    have h0 := hs.2 hsp
                    rw [countE_append, hloop, h0]
                · simp only [hu, Bool.not_false, if_true]
                  refine ⟨fun h => by simp at h, fun _ => ?_⟩
                  rw [countE_append, hloop, countE_unlink_tail]
        · simp only [h1, Bool.not_false, if_true]
          refine ⟨fun h => by simp at h, fun _ => ?_⟩
          rw [countE_append, hloop, countE_unlink_tail]

lemma innerBody_unlinks (env : Env) (f : StagedFile) (ofmt : String) :
    ((innerBody env f ofmt).2.isSome →
      countE (isUnlinkOf f.path) (innerBody env f ofmt).1 = 0) ∧
    ((innerBody env f ofmt).2 = none →
      countE (isUnlinkOf f.path) (innerBody env f ofmt).1 = 1) := by
  unfold innerBody
  cases hcj : env.createJob with
  | error e =>
    simp only [hcj]
    refine ⟨fun _ => ?_, fun h => by simp at h⟩
    simp [countE_singleton, isUnlinkOf]
  | ok body =>
    simp only [hcj]
    by_cases hid : jobIdTruthy body = true
    · simp only [hid, Bool.not_true, Bool.false_eq_true, if_false]
      have hup := uploadLoop_count_unlink env f.path 120 0
      cases hu2 : (uploadLoop env 120 0).2 with
      | error e =>
        simp only [hu2]
        refine ⟨fun _ => ?_, fun h => by simp at h⟩
        rw [countE_cons, hup]
        simp [isUnlinkOf]
      | ok ut =>
        simp only [hu2]
        by_cases hv : uploadTaskValid ut = true
        · simp only [hv, Bool.not_true, Bool.false_eq_true, if_false]
          cases hpost : env.uploadPostResp with
          | error e =>
            simp only [hpost]
            refine ⟨fun _ => ?_, fun h => by simp at h⟩
            rw [countE_cons, countE_append, hup, countE_singleton]
            simp [isUnlinkOf]
          | ok u =>
            simp only [hpost]
            have hcp := completionPhase_unlinks env (jobIdOf body) f.path
              (parseNameOf f.originalname) ofmt
            cases hc2 : (completionPhase env (jobIdOf body) f.path
                (parseNameOf f.originalname) ofmt).2 with
            | some e =>
              try simp only [hc2]
              refine ⟨fun _ => ?_, fun h => by simp at h⟩
              have h0 := hcp.1 (by rw [hc2]; rfl)
              rw [countE_cons, countE_append, countE_append, hup, countE_singleton, h0]
              simp [isUnlinkOf]
            | none =>
              simp only [hc2]
              refine ⟨fun h => by simp at h, fun _ => ?_⟩
              have h1 := hcp.2 hc2
              rw [countE_cons, countE_append, countE_append, hup, countE_singleton, h1]
              simp [isUnlinkOf]
        · simp only [hv, Bool.not_false, if_true]
          refine ⟨fun h => by simp at h, fun _ => ?_⟩
          rw [countE_cons, countE_append, hup, countE_unlink_tail]
          simp [isUnlinkOf]
    · simp only [hid, Bool.not_false, if_true]
      refine ⟨fun h => by simp at h, fun _ => ?_⟩
      simp [countE, isUnlinkOf, List.countP_cons]

/-- C1: for every request that stages a temporary file, the handler
deletes that file exactly once, on every terminating path of the
embedding (missing output format, missing credential, job-creation
failure or invalid job payload, upload-poll error or timeout, push
failure, completion-poll error, explicit provider job error,
completion timeout, malformed final poll payload, missing export
artifact, download failure, stream end and stream error). -/
theorem convertFile_unlinks_staged_once (req : Req) (env : Env) (f : StagedFile)
    (hf : req.file = some f) :
    countE (isUnlinkOf f.path) (convertFile req env) = 1 := by
  unfold convertFile
  rw [hf]
  by_cases hof : jsTruthy req.outputFormat = true
  · by_cases hkey : jsTruthy env.apiKey = true
    · simp only [hof, hkey, Bool.not_true, Bool.false_eq_true, if_false]
      unfold catchWrap
      have hib := innerBody_unlinks env f (req.outputFormat.getD "")
      cases h2 : (innerBody env f (req.outputFormat.getD "")).2 with
      | some e =>
        simp only [h2]
        have h0 := hib.1 (by rw [h2]; rfl)
        rw [countE_append, h0, countE_unlink_tail]
      | none =>
        simp only [h2]
        exact hib.2 h2
    · simp only [hof, hkey, Bool.not_true, Bool.not_false, Bool.false_eq_true, if_false, if_true]
      exact countE_unlink_tail f.path keyMissingMsg 500
  · simp only [hof, Bool.not_false, if_true]
    exact countE_unlink_tail f.path ("Output format is required.") 400

/-- Concrete staged file used by the witnesses. -/
def fW : StagedFile := ⟨"/tmp/upload-1", "report.docx", "application/octet-stream"⟩

/-- Concrete staged request used by the witnesses. -/
def reqW : Req := ⟨some fW, some ("pdf")⟩

/-- A concrete upload-intake task with a usable form target. -/
def readyTask : CCTask :=
  ⟨"upload-file", some ⟨some ⟨some ("https://u"), some ["key1"]⟩, none⟩⟩

/-- A concrete poll body exposing the upload target. -/
def uploadReadyBody : Body :=
  ⟨some ⟨some ("job-1"), some ("waiting"), none, some [readyTask]⟩⟩

/-- A concrete finished-job body with an export artifact. -/
def finishedBody : Body :=
  ⟨some ⟨some ("job-1"), some ("finished"), none,
    some [⟨"export-file", some ⟨none, some [⟨some ("https://d"), some ("application/pdf")⟩]⟩⟩]⟩⟩

/-- A concrete job-creation body carrying an id. -/
def createOkBody : Body := ⟨some ⟨some ("job-1"), none, none, none⟩⟩

/-- A concrete non-terminal completion-poll body. -/
def pendingBody : Body := ⟨some ⟨none, some ("processing"), none, none⟩⟩

/-- A concrete completion-poll body reporting a provider job error. -/
def errorBody : Body := ⟨some ⟨none, some ("error"), some ("boom"), none⟩⟩

/-- A concrete poll body with no job object at all. -/
def emptyBody : Body := ⟨none⟩

/-- Happy-path environment used by the witnesses. -/
def envW : Env :=
  ⟨some ("k"), Except.ok createOkBody, fun _ => Except.ok uploadReadyBody,
    Except.ok (), fun _ => Except.ok finishedBody, Except.ok StreamOutcome.ends⟩

theorem convertFile_unlinks_staged_once_witness :
    reqW.file = some fW ∧ countE (isUnlinkOf fW.path) (convertFile reqW envW) = 1 :=
  ⟨rfl, convertFile_unlinks_staged_once reqW envW fW rfl⟩

/-- C7: a request that staged a file but carries no (or an empty)
`outputFormat` is answered with exactly a deletion of the staged file
followed by a 400 response, and no provider call occurs. -/
theorem convertFile_missing_output_format (req : Req) (env : Env) (f : StagedFile)
    (hf : req.file = some f) (hof : jsTruthy req.outputFormat = false) :
    convertFile req env =
      [Ev.unlink f.path, Ev.respond 400 ("Output format is required.")] ∧
    countE isCallEv (convertFile req env) = 0 := by
  have ht : convertFile req env =
      [Ev.unlink f.path, Ev.respond 400 ("Output format is required.")] := by
    unfold convertFile
    rw [hf]
    simp [hof]
  exact ⟨ht, by rw [ht]; rfl⟩

/-- Concrete request with a staged file and no outputFormat. -/
def reqNoFmt : Req := ⟨some fW, none⟩

theorem convertFile_missing_output_format_witness :
    reqNoFmt.file = some fW ∧ jsTruthy reqNoFmt.outputFormat = false ∧
    (convertFile reqNoFmt envW =
      [Ev.unlink fW.path, Ev.respond 400 ("Output format is required.")] ∧
     countE isCallEv (convertFile reqNoFmt envW) = 0) :=
  ⟨rfl, rfl, convertFile_missing_output_format reqNoFmt envW fW rfl rfl⟩

/-- C6: when job creation returns a payload with no id (no job object,
or a job object whose `id` field is absent), the handler emits exactly
the job-creation call, the deletion of the staged file and a 500
response; in particular no further provider call is made. -/
theorem convertFile_job_payload_without_id (req : Req) (env : Env) (f : StagedFile)
    (body : Body) (hf : req.file = some f)
    (hof : jsTruthy req.outputFormat = true) (hkey : jsTruthy env.apiKey = true)
    (hcj : env.createJob = Except.ok body)
    (hid : body.data = none ∨ ∃ jd, body.data = some jd ∧ jd.id = none) :
    convertFile req env =
      [Ev.call (CallKind.createJob f.originalname (inputFormatOf f.originalname)
          (req.outputFormat.getD "")),
       Ev.unlink f.path, Ev.respond 500 invalidJobMsg] ∧
    countE isCallEv (convertFile req env) = 1 := by
  have hidt : jobIdTruthy body = false := by
    rcases hid with h | ⟨jd, hjd, hidn⟩
    · simp [jobIdTruthy, h]
    · simp [jobIdTruthy, hjd, hidn, jsTruthy]
  have ht : convertFile req env =
      [Ev.call (CallKind.createJob f.originalname (inputFormatOf f.originalname)
          (req.outputFormat.getD "")),
       Ev.unlink f.path, Ev.respond 500 invalidJobMsg] := by
    unfold convertFile
    rw [hf]
    simp only [hof, hkey, Bool.not_true, Bool.false_eq_true, if_false]
    unfold catchWrap innerBody
    simp [hcj, hidt]
  exact ⟨ht, by rw [ht]; rfl⟩

/-- Environment whose job creation answers with a payload lacking an id. -/
def envNoId : Env :=
  { envW with createJob := Except.ok ⟨some ⟨none, none, none, none⟩⟩ }

theorem convertFile_job_payload_without_id_witness :
    reqW.file = some fW ∧ jsTruthy reqW.outputFormat = true ∧
    jsTruthy envNoId.apiKey = true ∧
    envNoId.createJob = Except.ok ⟨some ⟨none, none, none, none⟩⟩ ∧
    (convertFile reqW envNoId =
      [Ev.call (CallKind.createJob fW.originalname (inputFormatOf fW.originalname)
          (reqW.outputFormat.getD "")),
       Ev.unlink fW.path, Ev.respond 500 invalidJobMsg] ∧
     countE isCallEv (convertFile reqW envNoId) = 1) :=
  ⟨rfl, rfl, rfl, rfl,
    convertFile_job_payload_without_id reqW envNoId fW ⟨some ⟨none, none, none, none⟩⟩
      rfl rfl rfl rfl (Or.inr ⟨⟨none, none, none, none⟩, rfl, rfl⟩)⟩

/-- C10: inside either polling loop, a poll body lacking the expected
structure (for the upload loop: no `data`, no `tasks`, or no task named
upload-file, i.e. `findUploadTask` yields nothing; for the completion
loop: no job object) is treated as a normal not-yet-ready attempt: the
iteration emits exactly its sleep-and-poll block, consumes one unit of
the attempt budget, and polling continues with the next attempt.  The
loop bodies are total on such bodies — no field of a missing structure
is accessed. -/
theorem poll_loops_tolerate_malformed_bodies :
    (∀ (env : Env) (fuel i : Nat) (b : Body),
      env.uploadPollResp i = Except.ok b → findUploadTask b = none →
      uploadLoop env (fuel+1) i =
        (uploadBlk ++ (uploadLoop env fuel (i+1)).1, (uploadLoop env fuel (i+1)).2)) ∧
    (∀ (env : Env) (jid : String) (fuel i : Nat) (last : Option Body) (b : Body),
      env.completionPollResp i = Except.ok b → b.data = none →
      completionLoop env jid (fuel+1) i last =
        (completionBlk ++ (completionLoop env jid fuel (i+1) (some b)).1,
         (completionLoop env jid fuel (i+1) (some b)).2)) := by
  constructor
  · intro env fuel i b hp hft
    conv_lhs => rw [uploadLoop]
    rw [hp]
    simp [hft]
  · intro env jid fuel i last b hp hd
    conv_lhs => rw [completionLoop]
    rw [hp]
    simp [hd]

/-- Environment whose polls return bodies with no job object. -/
def envMal : Env :=
  { envW with uploadPollResp := fun _ => Except.ok emptyBody,
              completionPollResp := fun _ => Except.ok emptyBody }

theorem poll_loops_tolerate_malformed_bodies_witness :
    (uploadLoop envMal 1 0 =
      (uploadBlk ++ (uploadLoop envMal 0 1).1, (uploadLoop envMal 0 1).2)) ∧
    (completionLoop envMal ("job-1") 1 0 none =
      (completionBlk ++ (completionLoop envMal ("job-1") 0 1 (some emptyBody)).1,
       (completionLoop envMal ("job-1") 0 1 (some emptyBody)).2)) :=
  ⟨poll_loops_tolerate_malformed_bodies.1 envMal 0 0 emptyBody rfl rfl,
   poll_loops_tolerate_malformed_bodies.2 envMal ("job-1") 0 0 none emptyBody rfl rfl⟩

lemma blocks_succ (blk : List Ev) (n : Nat) :
    (List.replicate (n+1) blk).join = blk ++ (List.replicate n blk).join := by
  simp [List.replicate_succ]

/-- Whatever the provider answers (including thrown errors), the upload
loop runs at most `fuel` iterations, each contributing exactly one
1-second sleep followed by one poll call. -/
lemma uploadLoop_shape (env : Env) :
    ∀ fuel i, ∃ n, n ≤ fuel ∧
      (uploadLoop env fuel i).1 = (List.replicate n uploadBlk).join := by
  intro fuel
  induction fuel with
  | zero => intro i; exact ⟨0, le_rfl, rfl⟩
  | succ m ih =>
    intro i
    cases hp : env.uploadPollResp i with
    | error e =>
      refine ⟨1, by omega, ?_⟩
      rw [uploadLoop, hp]
      simp
    | ok b =>
      cases hft : findUploadTask b with
      | some t =>
        by_cases hr : (hasUrlB t && hasParamsB t) = true
        · refine ⟨1, by omega, ?_⟩
          rw [uploadLoop, hp]
          simp [hft, hr]
        · obtain ⟨n, hn, hs⟩ := ih (i+1)
          refine ⟨n+1, by omega, ?_⟩
          rw [uploadLoop, hp]
          simp [hft, hr, hs, blocks_succ]
      | none =>
        obtain ⟨n, hn, hs⟩ := ih (i+1)
        refine ⟨n+1, by omega, ?_⟩
        rw [uploadLoop, hp]
        simp [hft, hs, blocks_succ]

/-- If every poll within the budget answers without throwing and never
exposes a usable upload target, the loop runs its full budget and
leaves `uploadTask` unset. -/
lemma uploadLoop_exhaust (env : Env) (B : Nat → Body) :
    ∀ fuel i,
      (∀ j, j < fuel → env.uploadPollResp (i+j) = Except.ok (B (i+j))) →
      (∀ j, j < fuel → readyB (B (i+j)) = false) →
      uploadLoop env fuel i = ((List.replicate fuel uploadBlk).join, Except.ok none) := by
  intro fuel
  induction fuel with
  | zero => intro i _ _; rfl
  | succ m ih =>
    intro i hok hnr
    have h0 : env.uploadPollResp i = Except.ok (B i) := by
      have h := hok 0 (by omega)
      have e : i + 0 = i := by omega
      rwa [e] at h
    have hnr0 : readyB (B i) = false := by
      have h := hnr 0 (by omega)
      have e : i + 0 = i := by omega
      rwa [e] at h
    have hrec := ih (i+1)
      (fun j hj => by
        have h := hok (j+1) (by omega)
        have e : i + (j+1) = (i+1) + j := by omega
        rwa [e] at h)
      (fun j hj => by
        have h := hnr (j+1) (by omega)
        have e : i + (j+1) = (i+1) + j := by omega
        rwa [e] at h)
    rw [uploadLoop, h0]
    cases hft : findUploadTask (B i) with
    | none =>
      simp [hft, hrec, blocks_succ]
    | some t =>
      have hr : (hasUrlB t && hasParamsB t) = false := by
        simpa [readyB, hft] using hnr0
      simp [hft, hr, hrec, blocks_succ]

/-- If the polls answer without throwing, the first usable answer at
attempt index `k` stops the loop after exactly `k+1` iterations, and
the loop returns the matching task of that answer. -/
lemma uploadLoop_found (env : Env) (B : Nat → Body) :
    ∀ fuel i k, k < fuel →
      (∀ j, j ≤ k → env.uploadPollResp (i+j) = Except.ok (B (i+j))) →
      (∀ j, j < k → readyB (B (i+j)) = false) →
      readyB (B (i+k)) = true →
      uploadLoop env fuel i =
        ((List.replicate (k+1) uploadBlk).join, Except.ok (findUploadTask (B (i+k)))) := by
  intro fuel
  induction fuel with
  | zero => intro i k hk; omega
  | succ m ih =>
    intro i k hk hok hnr hr
    have h0 : env.uploadPollResp i = Except.ok (B i) := by
      have h := hok 0 (by omega)
      have e : i + 0 = i := by omega
      rwa [e] at h
    rw [uploadLoop, h0]
    cases k with
    | zero =>
      have hrd : readyB (B i) = true := by
        have e : i + 0 = i := by omega
        rwa [e] at hr
      cases hft : findUploadTask (B i) with
      | none => simp [readyB, hft] at hrd
      | some t =>
        have hok2 : (hasUrlB t && hasParamsB t) = true := by
          simpa [readyB, hft] using hrd
        simp [hft, hok2]
    | succ n =>
      have hnr0 : readyB (B i) = false := by
        have h := hnr 0 (by omega)
        have e : i + 0 = i := by omega
        rwa [e] at h
      have hrec := ih (i+1) n (by omega)
        (fun j hj => by
          have h := hok (j+1) (by omega)
          have e : i + (j+1) = (i+1) + j := by omega
          rwa [e] at h)
        (fun j hj => by
          have h := hnr (j+1) (by omega)
          have e : i + (j+1) = (i+1) + j := by omega
          rwa [e] at h)
        (by
          have e : i + (n+1) = (i+1) + n := by omega
          rwa [e] at hr)
      have e2 : (i+1) + n = i + (n+1) := by omega
      cases hft : findUploadTask (B i) with
      | none =>
        simp only [hft]
        rw [hrec, e2]
        simp [blocks_succ]
      | some t =>
        have hr0 : (hasUrlB t && hasParamsB t) = false := by
          simpa [readyB, hft] using hnr0
        simp only [hft, hr0, Bool.false_eq_true, if_false]
        rw [hrec, e2]
        simp [blocks_succ]

/-- C3: (i) the upload-target loop performs at most 120 poll attempts,
each being a fixed 1-second sleep followed by one poll call; (ii) under
non-throwing polls it stops early exactly on the first attempt whose
body exposes both a nonempty destination URL string and a nonempty set
of form parameters (`readyB`), returning that attempt's upload task;
(iii) if all 120 attempts lack such a body, the loop leaves the task
unset and the handler deletes the staged file and responds 500 with a
message mentioning the upload-URL failure. -/
theorem uploadPoll_budget_and_timeout :
    (∀ env : Env, ∃ n, n ≤ 120 ∧
      (uploadLoop env 120 0).1 = (List.replicate n uploadBlk).join) ∧
    (∀ (env : Env) (B : Nat → Body),
      (∀ j, j < 120 → env.uploadPollResp j = Except.ok (B j)) →
      (∀ k, k < 120 → (∀ j, j < k → readyB (B j) = false) → readyB (B k) = true →
        uploadLoop env 120 0 =
          ((List.replicate (k+1) uploadBlk).join, Except.ok (findUploadTask (B k)))) ∧
      ((∀ j, j < 120 → readyB (B j) = false) →
        uploadLoop env 120 0 = ((List.replicate 120 uploadBlk).join, Except.ok none))) ∧
    (∀ (req : Req) (env : Env) (f : StagedFile) (body : Body) (B : Nat → Body),
      req.file = some f → jsTruthy req.outputFormat = true →
      jsTruthy env.apiKey = true →
      env.createJob = Except.ok body → jobIdTruthy body = true →
      (∀ j, j < 120 → env.uploadPollResp j = Except.ok (B j)) →
      (∀ j, j < 120 → readyB (B j) = false) →
      convertFile req env =
        Ev.call (CallKind.createJob f.originalname (inputFormatOf f.originalname)
          (req.outputFormat.getD "")) ::
        ((List.replicate 120 uploadBlk).join ++
          [Ev.unlink f.path, Ev.respond 500 uploadUrlMsg]) ∧
      (∃ x y, uploadUrlMsg = x ++ ("upload URL") ++ y)) := by
  have hz : ∀ j : Nat, (0:Nat) + j = j := fun j => by omega
  refine ⟨fun env => uploadLoop_shape env 120 0, ?_, ?_⟩
  · intro env B hok
    constructor
    · intro k hk hnr hr
      have h := uploadLoop_found env B 120 0 k hk
        (fun j hj => by rw [hz j]; exact hok j (by omega))
        (fun j hj => by rw [hz j]; exact hnr j (by omega))
        (by rw [hz k]; exact hr)
      rwa [hz k] at h
    · intro hnr
      exact uploadLoop_exhaust env B 120 0
        (fun j hj => by rw [hz j]; exact hok j hj)
        (fun j hj => by rw [hz j]; exact hnr j hj)
  · intro req env f body B hf hof hkey hcj hid hok hnr
    have hle : uploadLoop env 120 0 =
        ((List.replicate 120 uploadBlk).join, Except.ok none) :=
      uploadLoop_exhaust env B 120 0
        (fun j hj => by rw [hz j]; exact hok j hj)
        (fun j hj => by rw [hz j]; exact hnr j hj)
    constructor
    · unfold convertFile
      rw [hf]
      simp only [hof, hkey, Bool.not_true, Bool.false_eq_true, if_false]
      unfold catchWrap innerBody
      simp [hcj, hid, hle, uploadTaskValid]
    · exact ⟨("Failed to get CloudConvert "),
        (" after multiple attempts. Please try again or check CloudConvert status."),
        by rfl⟩

/-- A constant stream of structureless poll bodies. -/
def bodiesMal : Nat → Body := fun _ => emptyBody

/-- Environment whose upload polls never expose the upload target. -/
def envNR : Env := { envW with uploadPollResp := fun _ => Except.ok emptyBody }

theorem uploadPoll_budget_and_timeout_witness :
    (∃ n, n ≤ 120 ∧ (uploadLoop envNR 120 0).1 = (List.replicate n uploadBlk).join) ∧
    (uploadLoop envNR 120 0 = ((List.replicate 120 uploadBlk).join, Except.ok none)) ∧
    (convertFile reqW envNR =
        Ev.call (CallKind.createJob fW.originalname (inputFormatOf fW.originalname)
          (reqW.outputFormat.getD "")) ::
        ((List.replicate 120 uploadBlk).join ++
          [Ev.unlink fW.path, Ev.respond 500 uploadUrlMsg]) ∧
      (∃ x y, uploadUrlMsg = x ++ ("upload URL") ++ y)) :=
  ⟨uploadPoll_budget_and_timeout.1 envNR,
   (uploadPoll_budget_and_timeout.2.1 envNR bodiesMal (fun _ _ => rfl)).2 (fun _ _ => rfl),
   uploadPoll_budget_and_timeout.2.2 reqW envNR fW createOkBody bodiesMal
     rfl rfl rfl rfl rfl (fun _ _ => rfl) (fun _ _ => rfl)⟩

/-- When the completion poll observes an explicit provider `error`
status at 0-based attempt index `k` (all earlier attempts answering
non-terminally), the loop stops at that attempt — emitting exactly
`k+1` sleep-poll blocks and no further events — and throws the
job-failure error carrying the provider's message. -/
lemma completionLoop_error (env : Env) (jid : String) (B : Nat → Body)
    (jd : JobData) (m : String) :
    ∀ fuel i k last, k < fuel →
      (∀ j, j < k → env.completionPollResp (i+j) = Except.ok (B (i+j)) ∧
        nonTerminal (B (i+j)) = true) →
      env.completionPollResp (i+k) = Except.ok (B (i+k)) →
      (B (i+k)).data = some jd → jd.status = some ("error") →
      jd.message = some m → (m == "") = false →
      completionLoop env jid fuel i last =
        ((List.replicate (k+1) completionBlk).join,
         Except.error { respMsg := none, msg := jobFailMsg jid m }) := by
  intro fuel
  induction fuel with
  | zero => intro i k last hk; omega
  | succ n ih =>
    intro i k last hk hpre hpk hbd hst hm hm0
    cases k with
    | zero =>
      have e : i + 0 = i := by omega
      rw [e] at hpk hbd
      rw [completionLoop, hpk]
      simp only [hbd]
      have hf1 : (jd.status == some ("finished")) = false := by rw [hst]; rfl
      have he1 : (jd.status == some ("error")) = true := by rw [hst]; rfl
      have hjs : jsOr jd.message ("CloudConvert job failed with unknown error.") = m := by
        rw [hm]
        simp [jsOr, hm0]
      simp [hf1, he1, hjs]
    | succ p =>
      obtain ⟨h0, hnt0⟩ : env.completionPollResp i = Except.ok (B i) ∧
          nonTerminal (B i) = true := by
        have h := hpre 0 (by omega)
        have e : i + 0 = i := by omega
        rwa [e] at h
      have hrec := ih (i+1) p (some (B i)) (by omega)
        (fun j hj => by
          have h := hpre (j+1) (by omega)
          have e : i + (j+1) = (i+1) + j := by omega
          rwa [e] at h)
        (by
          have e : i + (p+1) = (i+1) + p := by omega
          rwa [e] at hpk)
        (by
          have e : i + (p+1) = (i+1) + p := by omega
          rwa [e] at hbd)
        hst hm hm0
      rw [completionLoop, h0]
      cases hd : (B i).data with
      | none =>
        simp only [hd]
        rw [hrec]
        simp [blocks_succ]
      | some jd1 =>
        have hb := hnt0
        simp only [nonTerminal, hd, Bool.and_eq_true, Bool.not_eq_eq_eq_not,
          Bool.not_true] at hb
        simp only [hd, hb.1, hb.2, Bool.false_eq_true, if_false]
        rw [hrec]
        simp [blocks_succ]

/-- When all polls within the budget answer non-terminally, the
completion loop exhausts its budget and hands back the final poll
response. -/
lemma completionLoop_exhaust (env : Env) (jid : String) (B : Nat → Body) :
    ∀ fuel i last, 0 < fuel →
      (∀ j, j < fuel → env.completionPollResp (i+j) = Except.ok (B (i+j)) ∧
        nonTerminal (B (i+j)) = true) →
      completionLoop env jid fuel i last =
        ((List.replicate fuel completionBlk).join,
         Except.ok (some (B (i + (fuel - 1))))) := by
  intro fuel
  induction fuel with
  | zero => intro i last h; omega
  | succ n ih =>
    intro i last hpos hall
    obtain ⟨h0, hnt0⟩ : env.completionPollResp i = Except.ok (B i) ∧
        nonTerminal (B i) = true := by
      have h := hall 0 (by omega)
      have e : i + 0 = i := by omega
      rwa [e] at h
    rw [completionLoop, h0]
    rcases Nat.eq_zero_or_pos n with hn | hn
    · subst hn
      cases hd : (B i).data with
      | none => simp [hd, completionLoop]
      | some jd =>
        have hb := hnt0
        simp only [nonTerminal, hd, Bool.and_eq_true, Bool.not_eq_eq_eq_not,
          Bool.not_true] at hb
        simp [hd, hb.1, hb.2, completionLoop]
    · have hrec := ih (i+1) (some (B i)) hn
        (fun j hj => by
          have h := hall (j+1) (by omega)
          have e : i + (j+1) = (i+1) + j := by omega
          rwa [e] at h)
      have e2 : (i+1) + (n-1) = i + (n + 1 - 1) := by omega
      cases hd : (B i).data with
      | none =>
        simp only [hd]
        rw [hrec, e2]
        simp [blocks_succ]
      | some jd =>
        have hb := hnt0
        simp only [nonTerminal, hd, Bool.and_eq_true, Bool.not_eq_eq_eq_not,
          Bool.not_true] at hb
        simp only [hd, hb.1, hb.2, Bool.false_eq_true, if_false]
        rw [hrec, e2]
        simp [blocks_succ]

/-- Under a staged file, a usable output format and credential, a job
id, a successful upload-target poll and a successful file push, the
handler trace is the job-creation call, the upload-poll events, the
push call, then the catch-wrapped completion phase. -/
lemma convertFile_main_shape (req : Req) (env : Env) (f : StagedFile) (body : Body)
    (ut : Option CCTask)
    (hf : req.file = some f) (hof : jsTruthy req.outputFormat = true)
    (hkey : jsTruthy env.apiKey = true)
    (hcj : env.createJob = Except.ok body) (hid : jobIdTruthy body = true)
    (hup : (uploadLoop env 120 0).2 = Except.ok ut)
    (hval : uploadTaskValid ut = true)
    (hpost : env.uploadPostResp = Except.ok ()) :
    convertFile req env =
      Ev.call (CallKind.createJob f.originalname (inputFormatOf f.originalname)
        (req.outputFormat.getD "")) ::
      ((uploadLoop env 120 0).1 ++ [Ev.call CallKind.uploadPost] ++
        catchWrap f.path (completionPhase env (jobIdOf body) f.path
          (parseNameOf f.originalname) (req.outputFormat.getD ""))) := by
  unfold convertFile
  rw [hf]
  simp only [hof, hkey, Bool.not_true, Bool.false_eq_true, if_false]
  unfold innerBody
  rw [hcj]
  simp only [hid, Bool.not_true, Bool.false_eq_true, if_false, hup, hval, hpost]
  unfold catchWrap
  cases hc2 : (completionPhase env (jobIdOf body) f.path
      (parseNameOf f.originalname) (req.outputFormat.getD "")).2 with
  | some e => simp [hc2, List.append_assoc]
  | none => simp [hc2]

/-- C2: when the completion poll observes provider status `error` at
0-based attempt index `k` (attempt number `k+1`, covering every
`k+1 ≤ 90`), with all earlier attempts answering non-terminally, the
handler performs no provider call after that poll: the full trace ends
with the `k+1` sleep-poll blocks followed only by the deletion of the
staged file and a single 500 response whose message carries the
provider-reported message `m` (wrapped in the job-failure text). -/
theorem completionPoll_error_stops_polling (req : Req) (env : Env) (f : StagedFile)
    (body : Body) (ut : Option CCTask) (B : Nat → Body) (jd : JobData)
    (m : String) (k : Nat)
    (hf : req.file = some f) (hof : jsTruthy req.outputFormat = true)
    (hkey : jsTruthy env.apiKey = true)
    (hcj : env.createJob = Except.ok body) (hid : jobIdTruthy body = true)
    (hup : (uploadLoop env 120 0).2 = Except.ok ut) (hval : uploadTaskValid ut = true)
    (hpost : env.uploadPostResp = Except.ok ())
    (hk : k < 90)
    (hpre : ∀ j, j < k → env.completionPollResp j = Except.ok (B j) ∧
      nonTerminal (B j) = true)
    (hpk : env.completionPollResp k = Except.ok (B k))
    (hbd : (B k).data = some jd) (hst : jd.status = some ("error"))
    (hm : jd.message = some m) (hm0 : (m == "") = false) :
    convertFile req env =
      Ev.call (CallKind.createJob f.originalname (inputFormatOf f.originalname)
        (req.outputFormat.getD "")) ::
      ((uploadLoop env 120 0).1 ++ [Ev.call CallKind.uploadPost] ++
        ((List.replicate (k+1) completionBlk).join ++
          [Ev.unlink f.path,
           Ev.respond 500 (("Conversion service error: ") ++ jobFailMsg (jobIdOf body) m)])) := by
  have hz : ∀ j : Nat, (0:Nat) + j = j := fun j => by omega
  have hloop := completionLoop_error env (jobIdOf body) B jd m 90 0 k none hk
    (fun j hj => by rw [hz j]; exact hpre j hj)
    (by rw [hz k]; exact hpk)
    (by rw [hz k]; exact hbd) hst hm hm0
  have hshape := convertFile_main_shape req env f body ut hf hof hkey hcj hid hup hval hpost
  rw [hshape]
  unfold completionPhase
  rw [hloop]
  simp [catchWrap, catchMsg, jsOr]

/-- Environment whose completion poll reports a provider error on the
second attempt. -/
def envErr : Env :=
  { envW with completionPollResp :=
      fun j => Except.ok (if j == 0 then pendingBody else errorBody) }

/-- Poll bodies of `envErr`. -/
def bodiesErr : Nat → Body := fun j => if j == 0 then pendingBody else errorBody

theorem completionPoll_error_stops_polling_witness :
    convertFile reqW envErr =
      Ev.call (CallKind.createJob fW.originalname (inputFormatOf fW.originalname)
        (reqW.outputFormat.getD "")) ::
      ((uploadLoop envErr 120 0).1 ++ [Ev.call CallKind.uploadPost] ++
        ((List.replicate 2 completionBlk).join ++
          [Ev.unlink fW.path,
           Ev.respond 500 (("Conversion service error: ") ++
             jobFailMsg (jobIdOf createOkBody) ("boom"))])) :=
  completionPoll_error_stops_polling reqW envErr fW createOkBody
    (some readyTask) bodiesErr ⟨none, some ("error"), some ("boom"), none⟩ ("boom") 1
    rfl rfl rfl rfl rfl rfl rfl rfl (by omega)
    (fun j hj => by
      cases j with
      | zero => exact ⟨rfl, rfl⟩
      | succ n => omega)
    rfl rfl rfl rfl rfl

/-- The fixed timeout message differs from every message produced by
the inner catch. -/
lemma timeoutMsg_ne_catch (s : String) :
    timeoutMsg ≠ ("Conversion service error: ") ++ s := by
  intro h
  obtain ⟨l⟩ := s
  have h3 : timeoutMsg.data = ("Conversion service error: ").data ++ l :=
    congrArg String.data h
  have h4 : timeoutMsg.data.head? = (("Conversion service error: ").data ++ l).head? := by
    rw [h3]
  have h5 : (("Conversion service error: ").data ++ l).head? = some ('C') := rfl
  rw [h5] at h4
  exact absurd h4 (by decide)

/-- C4 (amended): if all 90 completion polls answer non-terminally
(no `finished`, no `error`) and the final (90th) poll body carries a
job object, the handler responds 500 with the fixed timeout message —
a message distinct from every provider-error response — and deletes
the staged file. -/
theorem completionPoll_timeout_distinct (req : Req) (env : Env) (f : StagedFile)
    (body : Body) (ut : Option CCTask) (B : Nat → Body) (jd : JobData)
    (hf : req.file = some f) (hof : jsTruthy req.outputFormat = true)
    (hkey : jsTruthy env.apiKey = true)
    (hcj : env.createJob = Except.ok body) (hid : jobIdTruthy body = true)
    (hup : (uploadLoop env 120 0).2 = Except.ok ut) (hval : uploadTaskValid ut = true)
    (hpost : env.uploadPostResp = Except.ok ())
    (hall : ∀ j, j < 90 → env.completionPollResp j = Except.ok (B j) ∧
      nonTerminal (B j) = true)
    (hbd : (B 89).data = some jd) :
    convertFile req env =
      Ev.call (CallKind.createJob f.originalname (inputFormatOf f.originalname)
        (req.outputFormat.getD "")) ::
      ((uploadLoop env 120 0).1 ++ [Ev.call CallKind.uploadPost] ++
        ((List.replicate 90 completionBlk).join ++
          [Ev.unlink f.path, Ev.respond 500 timeoutMsg])) ∧
    (∀ s, timeoutMsg ≠ ("Conversion service error: ") ++ s) := by
  have hz : ∀ j : Nat, (0:Nat) + j = j := fun j => by omega
  have hloop := completionLoop_exhaust env (jobIdOf body) B 90 0 none (by omega)
    (fun j hj => by rw [hz j]; exact hall j hj)
  rw [hz 89] at hloop
  have hnt89 : nonTerminal (B 89) = true := (hall 89 (by omega)).2
  have hnf : (jd.status == some ("finished")) = false := by
    have hb := hnt89
    simp only [nonTerminal, hbd, Bool.and_eq_true, Bool.not_eq_eq_eq_not,
      Bool.not_true] at hb
    exact hb.1
  have hshape := convertFile_main_shape req env f body ut hf hof hkey hcj hid hup hval hpost
  refine ⟨?_, timeoutMsg_ne_catch⟩
  rw [hshape]
  unfold completionPhase
  rw [hloop]
  simp [catchWrap, hbd, hnf]

/-- Environment whose 90 completion polls all return a body with no
job object: the budget is exhausted with neither `finished` nor
`error` ever observed. -/
def envC4 : Env := { envW with completionPollResp := fun _ => Except.ok emptyBody }

/-- C4 counterexample: under `envC4` the completion budget is exhausted
without observing `finished` or `error` (every body is non-terminal),
yet the handler never emits the timeout-failure response: the final
`jobStatusResponse.data.data.status` access raises a TypeError and the
request is answered through the generic conversion-service-error catch
(the staged file is still deleted). -/
theorem completionPoll_timeout_counterexample :
    nonTerminal emptyBody = true ∧
    Ev.respond 500 timeoutMsg ∉ convertFile reqW envC4 ∧
    Ev.respond 500 (("Conversion service error: ") ++ typeErrStatusMsg) ∈
      convertFile reqW envC4 ∧
    Ev.unlink fW.path ∈ convertFile reqW envC4 := by
  refine ⟨rfl, ?_, ?_, ?_⟩ <;> decide

/-- Is this event a JSON response placed on the wire? -/
def isRespondEv : Ev → Bool
  | Ev.respond _ _ => true
  | _ => false

lemma countE_uploadBlk_respond : countE isRespondEv uploadBlk = 0 := rfl

lemma countE_completionBlk_respond : countE isRespondEv completionBlk = 0 := rfl

/-- The upload-target poll emits no responses. -/
lemma uploadLoop_count_respond (env : Env) :
    ∀ fuel i, countE isRespondEv (uploadLoop env fuel i).1 = 0 := by
  intro fuel
  induction fuel with
  | zero => intro i; rfl
  | succ n ih =>
    intro i
    unfold uploadLoop
    cases henv : env.uploadPollResp i with
    | error e => exact countE_uploadBlk_respond
    | ok b =>
      cases hft : findUploadTask b with
      | none =>
        simp only [hft, countE_append, ih, countE_uploadBlk_respond]
      | some t =>
        simp only [hft]
        by_cases hr : (hasUrlB t && hasParamsB t) = true
        · simp only [hr, if_true]
          exact countE_uploadBlk_respond
        · simp [hr, countE_append, ih, countE_uploadBlk_respond]

/-- The completion poll emits no responses. -/
lemma completionLoop_count_respond (env : Env) (jid : String) :
    ∀ fuel i last, countE isRespondEv (completionLoop env jid fuel i last).1 = 0 := by
  intro fuel
  induction fuel with
  | zero => intro i last; rfl
  | succ n ih =>
    intro i last
    unfold completionLoop
    cases henv : env.completionPollResp i with
    | error e => exact countE_completionBlk_respond
    | ok b =>
      cases hd : b.data with
      | none => simp only [hd, countE_append, ih, countE_completionBlk_respond]
      | some jd =>
        simp only [hd]
        by_cases h1 : (jd.status == some ("finished")) = true
        · simp only [h1, if_true]
          exact countE_completionBlk_respond
        · by_cases h2 : (jd.status == some ("error")) = true
          · simp only [h1, h2, if_false, if_true]
            exact countE_completionBlk_respond
          · simp [h1, h2, countE_append, ih, countE_completionBlk_respond]

/-- When the completion loop hands back a finished job whose export
task carries a usable file entry, the completion phase continues into
the stream phase after the loop events. -/
lemma completionPhase_success (env : Env) (jid path stem ofmt : String)
    (b : Body) (jd : JobData) (ts : List CCTask) (t : CCTask) (f0 : FileEntry)
    (hc2 : (completionLoop env jid 90 0 none).2 = Except.ok (some b))
    (hbd : b.data = some jd) (hst : jd.status = some ("finished"))
    (hts : jd.tasks = some ts) (hfind : ts.find? exportFindPred = some t)
    (hff : firstFile t = some f0) (hu : jsTruthy f0.url = true) :
    completionPhase env jid path stem ofmt =
      ((completionLoop env jid 90 0 none).1 ++ (streamPhase env path stem ofmt f0).1,
       (streamPhase env path stem ofmt f0).2) := by
  unfold completionPhase
  have hf1 : (jd.status == some ("finished")) = true := by rw [hst]; rfl
  simp only [hc2, hbd, hf1, hts, hfind, hff, hu, Bool.not_true, Bool.false_eq_true,
    if_false]

/-- C8: on the success path (finished job, usable export entry, clean
download stream) the two response headers are set before the pipe
starts: Content-Type is the provider-reported MIME type with fallback
`application/<outputFormat>` (the fallback is used exactly when the
reported value is absent or empty), and Content-Disposition is an
attachment naming `<parsed original stem>.<outputFormat>`. -/
theorem success_response_headers (req : Req) (env : Env) (f : StagedFile)
    (body : Body) (ut : Option CCTask) (b : Body) (jd : JobData)
    (ts : List CCTask) (t : CCTask) (f0 : FileEntry)
    (hf : req.file = some f) (hof : jsTruthy req.outputFormat = true)
    (hkey : jsTruthy env.apiKey = true)
    (hcj : env.createJob = Except.ok body) (hid : jobIdTruthy body = true)
    (hup : (uploadLoop env 120 0).2 = Except.ok ut) (hval : uploadTaskValid ut = true)
    (hpost : env.uploadPostResp = Except.ok ())
    (hc2 : (completionLoop env (jobIdOf body) 90 0 none).2 = Except.ok (some b))
    (hbd : b.data = some jd) (hst : jd.status = some ("finished"))
    (hts : jd.tasks = some ts) (hfind : ts.find? exportFindPred = some t)
    (hff : firstFile t = some f0) (hu : jsTruthy f0.url = true)
    (hdl : env.downloadResp = Except.ok StreamOutcome.ends) :
    convertFile req env =
      Ev.call (CallKind.createJob f.originalname (inputFormatOf f.originalname)
        (req.outputFormat.getD "")) ::
      ((uploadLoop env 120 0).1 ++ [Ev.call CallKind.uploadPost] ++
        ((completionLoop env (jobIdOf body) 90 0 none).1 ++
          [Ev.call CallKind.download,
           Ev.setHeader ("Content-Type")
             (jsOr f0.mime (("application/") ++ req.outputFormat.getD "")),
           Ev.setHeader ("Content-Disposition")
             (("attachment; filename=\"") ++ parseNameOf f.originalname ++ (".") ++
               req.outputFormat.getD "" ++ ("\"")),
           Ev.pipeStart, Ev.unlink f.path])) ∧
    (∀ ms, f0.mime = some ms → (ms == "") = false →
      jsOr f0.mime (("application/") ++ req.outputFormat.getD "") = ms) ∧
    (f0.mime = none →
      jsOr f0.mime (("application/") ++ req.outputFormat.getD "") =
        ("application/") ++ req.outputFormat.getD "") := by
  refine ⟨?_, ?_, ?_⟩
  · rw [convertFile_main_shape req env f body ut hf hof hkey hcj hid hup hval hpost,
      completionPhase_success env (jobIdOf body) f.path (parseNameOf f.originalname)
        (req.outputFormat.getD "") b jd ts t f0 hc2 hbd hst hts hfind hff hu]
    unfold streamPhase
    rw [hdl]
    simp [catchWrap, List.append_assoc]
  · intro ms hms hms0
    rw [hms]
    simp [jsOr, hms0]
  · intro hnone
    rw [hnone]
    rfl

theorem success_response_headers_witness :
    convertFile reqW envW =
      Ev.call (CallKind.createJob fW.originalname (inputFormatOf fW.originalname)
        (reqW.outputFormat.getD "")) ::
      ((uploadLoop envW 120 0).1 ++ [Ev.call CallKind.uploadPost] ++
        ((completionLoop envW (jobIdOf createOkBody) 90 0 none).1 ++
          [Ev.call CallKind.download,
           Ev.setHeader ("Content-Type")
             (jsOr (some ("application/pdf")) (("application/") ++ reqW.outputFormat.getD "")),
           Ev.setHeader ("Content-Disposition")
             (("attachment; filename=\"") ++ parseNameOf fW.originalname ++ (".") ++
               reqW.outputFormat.getD "" ++ ("\"")),
           Ev.pipeStart, Ev.unlink fW.path])) :=
  (success_response_headers reqW envW fW createOkBody (some readyTask) finishedBody
    ⟨some ("job-1"), some ("finished"), none,
      some [⟨"export-file", some ⟨none, some [⟨some ("https://d"), some ("application/pdf")⟩]⟩⟩]⟩
    [⟨"export-file", some ⟨none, some [⟨some ("https://d"), some ("application/pdf")⟩]⟩⟩]
    ⟨"export-file", some ⟨none, some [⟨some ("https://d"), some ("application/pdf")⟩]⟩⟩
    ⟨some ("https://d"), some ("application/pdf")⟩
    rfl rfl rfl rfl rfl rfl rfl rfl rfl rfl rfl rfl rfl rfl rfl rfl).1

lemma countE_nil (p : Ev → Bool) : countE p [] = 0 := rfl

/-- C5: on a stream error raised while relaying bytes to the caller
(after the artifact download began), the handler deletes the staged
input file, and a 500 stream-error response is placed on the wire
exactly when response headers have not yet been sent; when headers
were already sent the request aborts with no response event at all in
the trace. -/
theorem stream_error_cleanup_and_response (req : Req) (env : Env) (f : StagedFile)
    (body : Body) (ut : Option CCTask) (b : Body) (jd : JobData)
    (ts : List CCTask) (t : CCTask) (f0 : FileEntry) (hSent : Bool) (m : String)
    (hf : req.file = some f) (hof : jsTruthy req.outputFormat = true)
    (hkey : jsTruthy env.apiKey = true)
    (hcj : env.createJob = Except.ok body) (hid : jobIdTruthy body = true)
    (hup : (uploadLoop env 120 0).2 = Except.ok ut) (hval : uploadTaskValid ut = true)
    (hpost : env.uploadPostResp = Except.ok ())
    (hc2 : (completionLoop env (jobIdOf body) 90 0 none).2 = Except.ok (some b))
    (hbd : b.data = some jd) (hst : jd.status = some ("finished"))
    (hts : jd.tasks = some ts) (hfind : ts.find? exportFindPred = some t)
    (hff : firstFile t = some f0) (hu : jsTruthy f0.url = true)
    (hdl : env.downloadResp = Except.ok (StreamOutcome.errors hSent m)) :
    convertFile req env =
      Ev.call (CallKind.createJob f.originalname (inputFormatOf f.originalname)
        (req.outputFormat.getD "")) ::
      ((uploadLoop env 120 0).1 ++ [Ev.call CallKind.uploadPost] ++
        ((completionLoop env (jobIdOf body) 90 0 none).1 ++
          ([Ev.call CallKind.download,
            Ev.setHeader ("Content-Type")
              (jsOr f0.mime (("application/") ++ req.outputFormat.getD "")),
            Ev.setHeader ("Content-Disposition")
              (("attachment; filename=\"") ++ parseNameOf f.originalname ++ (".") ++
                req.outputFormat.getD "" ++ ("\"")),
            Ev.pipeStart, Ev.unlink f.path] ++
           (if hSent then [] else [Ev.respond 500 streamErrMsg])))) ∧
    countE isRespondEv (convertFile req env) = (if hSent then 0 else 1) := by
  have htr : convertFile req env =
      Ev.call (CallKind.createJob f.originalname (inputFormatOf f.originalname)
        (req.outputFormat.getD "")) ::
      ((uploadLoop env 120 0).1 ++ [Ev.call CallKind.uploadPost] ++
        ((completionLoop env (jobIdOf body) 90 0 none).1 ++
          ([Ev.call CallKind.download,
            Ev.setHeader ("Content-Type")
              (jsOr f0.mime (("application/") ++ req.outputFormat.getD "")),
            Ev.setHeader ("Content-Disposition")
              (("attachment; filename=\"") ++ parseNameOf f.originalname ++ (".") ++
                req.outputFormat.getD "" ++ ("\"")),
            Ev.pipeStart, Ev.unlink f.path] ++
           (if hSent then [] else [Ev.respond 500 streamErrMsg])))) := by
    rw [convertFile_main_shape req env f body ut hf hof hkey hcj hid hup hval hpost,
      completionPhase_success env (jobIdOf body) f.path (parseNameOf f.originalname)
        (req.outputFormat.getD "") b jd ts t f0 hc2 hbd hst hts hfind hff hu]
    unfold streamPhase
    rw [hdl]
    cases hSent with
    | true => simp [catchWrap, List.append_assoc]
    | false => simp [catchWrap, List.append_assoc]
  refine ⟨htr, ?_⟩
  rw [htr]
  have h1 := uploadLoop_count_respond env 120 0
  have h2 := completionLoop_count_respond env (jobIdOf body) 90 0 none
  cases hSent with
  | true =>
    simp [countE_cons, countE_append, countE_singleton, countE_nil, h1, h2, isRespondEv]
  | false =>
    simp [countE_cons, countE_append, countE_singleton, countE_nil, h1, h2, isRespondEv]

/-- Environment whose artifact stream errors after headers reached the
wire. -/
def envSE : Env :=
  { envW with downloadResp := Except.ok (StreamOutcome.errors true ("reset")) }

theorem stream_error_cleanup_and_response_witness :
    convertFile reqW envSE =
      Ev.call (CallKind.createJob fW.originalname (inputFormatOf fW.originalname)
        (reqW.outputFormat.getD "")) ::
      ((uploadLoop envSE 120 0).1 ++ [Ev.call CallKind.uploadPost] ++
        ((completionLoop envSE (jobIdOf createOkBody) 90 0 none).1 ++
          ([Ev.call CallKind.download,
            Ev.setHeader ("Content-Type")
              (jsOr (some ("application/pdf"))
                (("application/") ++ reqW.outputFormat.getD "")),
            Ev.setHeader ("Content-Disposition")
              (("attachment; filename=\"") ++ parseNameOf fW.originalname ++ (".") ++
                reqW.outputFormat.getD "" ++ ("\"")),
            Ev.pipeStart, Ev.unlink fW.path] ++
           (if true then [] else [Ev.respond 500 streamErrMsg])))) ∧
    countE isRespondEv (convertFile reqW envSE) = (if true then 0 else 1) :=
  stream_error_cleanup_and_response reqW envSE fW createOkBody (some readyTask)
    finishedBody
    ⟨some ("job-1"), some ("finished"), none,
      some [⟨"export-file", some ⟨none, some [⟨some ("https://d"), some ("application/pdf")⟩]⟩⟩]⟩
    [⟨"export-file", some ⟨none, some [⟨some ("https://d"), some ("application/pdf")⟩]⟩⟩]
    ⟨"export-file", some ⟨none, some [⟨some ("https://d"), some ("application/pdf")⟩]⟩⟩
    ⟨some ("https://d"), some ("application/pdf")⟩ true ("reset")
    rfl rfl rfl rfl rfl rfl rfl rfl rfl rfl rfl rfl rfl rfl rfl rfl

/-- Environment whose 90 completion polls all report a pending status. -/
def envTO : Env := { envW with completionPollResp := fun _ => Except.ok pendingBody }

theorem completionPoll_timeout_distinct_witness :
    convertFile reqW envTO =
      Ev.call (CallKind.createJob fW.originalname (inputFormatOf fW.originalname)
        (reqW.outputFormat.getD "")) ::
      ((uploadLoop envTO 120 0).1 ++ [Ev.call CallKind.uploadPost] ++
        ((List.replicate 90 completionBlk).join ++
          [Ev.unlink fW.path, Ev.respond 500 timeoutMsg])) ∧
    (∀ s, timeoutMsg ≠ ("Conversion service error: ") ++ s) :=
  completionPoll_timeout_distinct reqW envTO fW createOkBody (some readyTask)
    (fun _ => pendingBody) ⟨none, some ("processing"), none, none⟩
    rfl rfl rfl rfl rfl rfl rfl rfl
    (fun _ _ => ⟨rfl, rfl⟩) rfl

/-- The scan is compositional over slash-free prefixes (`break` can
only trigger on a separator). -/
lemma extGo_append (l1 l2 : List Char) :
    ∀ i st, ('/' : Char) ∉ l1 →
      extGo (l1 ++ l2) i st = extGo l2 (i - l1.length) (extGo l1 i st) := by
  induction l1 with
  | nil => intro i st _; simp [extGo]
  | cons c cs ih =>
    intro i st h
    have h1 : ('/' : Char) ≠ c ∧ ('/' : Char) ∉ cs := by
      simpa [List.mem_cons, not_or] using h
    have hc : (c == ('/' : Char)) = false := beq_eq_false_iff_ne.mpr (Ne.symm h1.1)
    simp only [List.cons_append, extGo, hc, Bool.false_eq_true, if_false,
      List.append_eq]
    rw [ih (i-1) _ h1.2]
    have e : i - 1 - cs.length = i - (cs.length + 1) := by omega
    simp [List.length_cons, e]

/-- Without a dot in the input, `startDot` is never set. -/
lemma extGo_startDot_none (l : List Char) :
    ∀ i st, st.startDot = none → ('.' : Char) ∉ l →
      (extGo l i st).startDot = none := by
  induction l with
  | nil => intro i st h _; exact h
  | cons c cs ih =>
    intro i st h hd
    have hd1 : ('.' : Char) ≠ c ∧ ('.' : Char) ∉ cs := by
      simpa [List.mem_cons, not_or] using hd
    have hcd : (c == ('.' : Char)) = false := beq_eq_false_iff_ne.mpr (Ne.symm hd1.1)
    by_cases hc : (c == ('/' : Char)) = true
    · simp only [extGo, hc, if_true]
      by_cases hms : (st.matchedSlash == false) = true
      · simp only [hms, if_true]
        exact h
      · simp only [hms, Bool.false_eq_true, if_false]
        exact ih (i-1) st h hd1.2
    · simp only [extGo, hc, Bool.false_eq_true, if_false, hcd]
      apply ih (i-1) _ _ hd1.2
      split <;> split <;> simp_all

/-- A slash-free, dot-free run leaves a state with `endIdx` already set
completely unchanged. -/
lemma extGo_no_dot_set (l : List Char) :
    ∀ i sp e ms pd, ('/' : Char) ∉ l → ('.' : Char) ∉ l →
      extGo l i ⟨none, sp, some e, ms, pd⟩ = ⟨none, sp, some e, ms, pd⟩ := by
  induction l with
  | nil => intro i sp e ms pd _ _; rfl
  | cons c cs ih =>
    intro i sp e ms pd h hd
    have h1 : ('/' : Char) ≠ c ∧ ('/' : Char) ∉ cs := by
      simpa [List.mem_cons, not_or] using h
    have hd1 : ('.' : Char) ≠ c ∧ ('.' : Char) ∉ cs := by
      simpa [List.mem_cons, not_or] using hd
    have hc : (c == ('/' : Char)) = false := beq_eq_false_iff_ne.mpr (Ne.symm h1.1)
    have hcd : (c == ('.' : Char)) = false := beq_eq_false_iff_ne.mpr (Ne.symm hd1.1)
    simp only [extGo, hc, hcd, Bool.false_eq_true, if_false]
    simp only [show ((some e : Option Nat) == none) = false from rfl,
      show ((none : Option Nat) == none) = true from rfl, Bool.false_eq_true,
      if_false, Bool.not_true, if_true]
    exact ih (i-1) sp e ms pd h1.2 hd1.2

/-- A nonempty slash-free, dot-free run from a fresh state only records
the end of the basename. -/
lemma extGo_fresh_no_dot (l : List Char) (i : Nat) (sp : Nat) (ms : Bool) (pd : Int)
    (hne : l ≠ []) (h : ('/' : Char) ∉ l) (hd : ('.' : Char) ∉ l) :
    extGo l i ⟨none, sp, none, ms, pd⟩ = ⟨none, sp, some (i+1), false, pd⟩ := by
  obtain ⟨c, cs, rfl⟩ := List.exists_cons_of_ne_nil hne
  have h1 : ('/' : Char) ≠ c ∧ ('/' : Char) ∉ cs := by
    simpa [List.mem_cons, not_or] using h
  have hd1 : ('.' : Char) ≠ c ∧ ('.' : Char) ∉ cs := by
    simpa [List.mem_cons, not_or] using hd
  have hc : (c == ('/' : Char)) = false := beq_eq_false_iff_ne.mpr (Ne.symm h1.1)
  have hcd : (c == ('.' : Char)) = false := beq_eq_false_iff_ne.mpr (Ne.symm hd1.1)
  simp only [extGo, hc, hcd, Bool.false_eq_true, if_false]
  simp only [show ((none : Option Nat) == none) = true from rfl, if_true,
    Bool.not_true, if_false]
  exact extGo_no_dot_set cs (i-1) sp (i+1) false pd h1.2 hd1.2

/-- One scan step on a non-separator once the dot and the basename end
are both recorded: only `preDotState` changes. -/
lemma extGo_step_after_dot (c : Char) (cs : List Char) (i : Nat)
    (sd sp e : Nat) (ms : Bool) (pd : Int)
    (hc : (c == ('/' : Char)) = false) :
    extGo (c :: cs) i ⟨some sd, sp, some e, ms, pd⟩ =
      extGo cs (i-1)
        ⟨some sd, sp, some e, ms, if c == ('.' : Char) then 1 else -1⟩ := by
  by_cases hcd : (c == ('.' : Char)) = true
  · by_cases hpd : (pd == (1 : Int)) = true
    · have hp : pd = 1 := eq_of_beq hpd
      subst hp
      simp [extGo, hc, hcd,
        show ((some e : Option Nat) == none) = false from rfl,
        show ((some sd : Option Nat) == none) = false from rfl]
    · have hp : ¬ pd = 1 := fun h => hpd (by rw [h]; rfl)
      simp [extGo, hc, hcd, hp,
        show ((some e : Option Nat) == none) = false from rfl,
        show ((some sd : Option Nat) == none) = false from rfl]
  · have hcd2 : (c == ('.' : Char)) = false := by
      cases hq : (c == ('.' : Char)) with
      | true => exact absurd hq hcd
      | false => rfl
    simp [extGo, hc, hcd2,
      show ((some e : Option Nat) == none) = false from rfl,
      show ((some sd : Option Nat) == none) = false from rfl]

/-- After the (right-to-left) first dot is recorded, the rest of a
slash-free scan only folds `preDotState` over the remaining
characters. -/
lemma extGo_after_dot (cs : List Char) :
    ∀ i sd sp e ms pd, ('/' : Char) ∉ cs →
      extGo cs i ⟨some sd, sp, some e, ms, pd⟩ =
        ⟨some sd, sp, some e, ms,
          cs.foldl (fun _ c => if c == ('.' : Char) then (1:Int) else -1) pd⟩ := by
  induction cs with
  | nil => intro i sd sp e ms pd _; rfl
  | cons c cs ih =>
    intro i sd sp e ms pd h
    have h1 : ('/' : Char) ≠ c ∧ ('/' : Char) ∉ cs := by
      simpa [List.mem_cons, not_or] using h
    have hc : (c == ('/' : Char)) = false := beq_eq_false_iff_ne.mpr (Ne.symm h1.1)
    rw [extGo_step_after_dot c cs i sd sp e ms pd hc, ih (i-1) sd sp e ms _ h1.2,
      List.foldl_cons]

/-- Folding a state-independent function equals applying it to the
last element. -/
lemma foldl_const_getLast (g : Char → Int) :
    ∀ (l : List Char) (a : Int) (c : Char), l.getLast? = some c →
      l.foldl (fun _ x => g x) a = g c := by
  intro l
  induction l with
  | nil => intro a c h; simp at h
  | cons x xs ih =>
    intro a c h
    cases hxs : xs with
    | nil =>
      subst hxs
      simp only [List.getLast?_singleton] at h
      simp [List.foldl_cons, Option.some.injEq] at h ⊢
      rw [h]
    | cons y ys =>
      subst hxs
      rw [List.foldl_cons]
      exact ih (g x) c (by rwa [List.getLast?_cons_cons] at h)

/-- Splitting a list at its first occurrence of the dot. -/
lemma mem_split_first (r : List Char) (h : ('.' : Char) ∈ r) :
    ∃ r1 r2, r = r1 ++ ('.' : Char) :: r2 ∧ ('.' : Char) ∉ r1 := by
  induction r with
  | nil => cases h
  | cons c cs ih =>
    by_cases hc : c = ('.' : Char)
    · exact ⟨[], cs, by rw [hc]; rfl, by simp⟩
    · have h2 : ('.' : Char) ∈ cs := by
        rcases List.mem_cons.mp h with h3 | h3
        · exact absurd h3.symm hc
        · exact h3
      obtain ⟨r1, r2, he, hn⟩ := ih h2
      refine ⟨c :: r1, r2, by rw [List.cons_append, he], ?_⟩
      simp only [List.mem_cons, not_or]
      exact ⟨fun e => hc e.symm, hn⟩

/-- `takeWhile` runs through a satisfying prefix and stops at the first
failing element. -/
lemma takeWhile_app (p : Char → Bool) (r1 : List Char)
    (h : ∀ c, c ∈ r1 → p c = true) (x : Char) (rest : List Char)
    (hx : p x = false) :
    (r1 ++ x :: rest).takeWhile p = r1 := by
  induction r1 with
  | nil => simp [List.takeWhile, hx]
  | cons c cs ih =>
    have hc : p c = true := h c (by simp)
    simp only [List.cons_append, List.takeWhile, hc, List.append_eq]
    rw [ih (fun d hd => h d (by simp [hd]))]

/-- The scan step on the (right-to-left) first dot, fresh state. -/
lemma extGo_dot_step_fresh (r2 : List Char) (i sp : Nat) (ms : Bool) (pd : Int) :
    extGo (('.' : Char) :: r2) i ⟨none, sp, none, ms, pd⟩ =
      extGo r2 (i-1) ⟨some i, sp, some (i+1), false, pd⟩ := by
  simp [extGo, show (('.' : Char) == ('/' : Char)) = false from by decide,
    show (('.' : Char) == ('.' : Char)) = true from by decide,
    show ((none : Option Nat) == none) = true from rfl]

/-- The scan step on the (right-to-left) first dot once the basename
end is recorded. -/
lemma extGo_dot_step_set (r2 : List Char) (i sp e : Nat) (ms : Bool) (pd : Int) :
    extGo (('.' : Char) :: r2) i ⟨none, sp, some e, ms, pd⟩ =
      extGo r2 (i-1) ⟨some i, sp, some e, ms, pd⟩ := by
  simp [extGo, show (('.' : Char) == ('/' : Char)) = false from by decide,
    show (('.' : Char) == ('.' : Char)) = true from by decide,
    show ((some e : Option Nat) == none) = false from rfl,
    show ((none : Option Nat) == none) = true from rfl]

/-- The preDotState fold over a tail with a known non-dot last element. -/
lemma fold_pre (r2 : List Char) (a : Int) (cl : Char) (hcl : r2.getLast? = some cl) :
    r2.foldl (fun _ c => if c == ('.' : Char) then (1:Int) else -1) a =
      if cl == ('.' : Char) then (1:Int) else -1 :=
  foldl_const_getLast (fun c => if c == ('.' : Char) then (1:Int) else -1) r2 a cl hcl

/-- Full characterization of the scan for a slash-free name containing
a dot whose last-dot suffix ends (leftwards) in a non-dot character:
`startDot` is the index of the last dot, `end` is the length, and
`preDotState` is `-1`. -/
lemma extScan_of_dot (s : List Char) (r1 r2 : List Char) (cl : Char)
    (hr : s.reverse = r1 ++ ('.' : Char) :: r2)
    (hnr1 : ('.' : Char) ∉ r1)
    (hslash : ('/' : Char) ∉ s)
    (hcl : r2.getLast? = some cl) (hcl2 : (cl == ('.' : Char)) = false) :
    extScan s = ⟨some r2.length, 0, some s.length, false, -1⟩ := by
  have hsr : ('/' : Char) ∉ s.reverse := by simpa [List.mem_reverse] using hslash
  rw [hr] at hsr
  have hs1 : ('/' : Char) ∉ r1 := fun h => hsr (List.mem_append.mpr (Or.inl h))
  have hs2 : ('/' : Char) ∉ r2 := fun h =>
    hsr (List.mem_append.mpr (Or.inr (List.mem_cons.mpr (Or.inr h))))
  have hlen : s.length = r1.length + r2.length + 1 := by
    have h2 := congrArg List.length hr
    simp only [List.length_reverse, List.length_append, List.length_cons] at h2
    omega
  unfold extScan
  rw [hr]
  by_cases hr1 : r1 = []
  · subst hr1
    simp only [List.nil_append]
    rw [extGo_dot_step_fresh, extGo_after_dot r2 _ _ _ _ _ _ hs2,
      fold_pre r2 0 cl hcl]
    have e1 : s.length - 1 = r2.length := by
      simp only [List.length_nil] at hlen
      omega
    have e2 : s.length - 1 + 1 = s.length := by omega
    rw [e1]
    rw [show r2.length + 1 = s.length from by omega]
    simp [hcl2]
  · rw [extGo_append r1 _ _ _ hs1,
      extGo_fresh_no_dot r1 _ _ _ _ hr1 hs1 hnr1,
      extGo_dot_step_set, extGo_after_dot r2 _ _ _ _ _ _ hs2,
      fold_pre r2 0 cl hcl]
    have e1 : s.length - 1 - r1.length = r2.length := by omega
    have e2 : s.length - 1 + 1 = s.length := by omega
    rw [e1, e2]
    simp [hcl2]

/-- Without any dot in the original name, the computed extension is
empty (this also covers names containing separators). -/
lemma extnameL_no_dot (s : List Char) (h : ('.' : Char) ∉ s) : extnameL s = [] := by
  have h0 : (extScan s).startDot = none :=
    extGo_startDot_none s.reverse (s.length - 1) _ rfl
      (by simpa [List.mem_reverse] using h)
  rcases hst : extScan s with ⟨sd, sp, ei, ms, pd⟩
  have h1 : sd = none := by rw [hst] at h0; exact h0
  subst h1
  unfold extnameL
  rw [hst]

/-- For a nonempty slash-free name not starting with a dot but
containing one, the extension minus its leading dot is exactly the
suffix after the last dot. -/
lemma extnameL_drop_of_dot (s : List Char) (_hs : s ≠ [])
    (hslash : ('/' : Char) ∉ s) (hhead : s.head? ≠ some ('.' : Char))
    (hdot : ('.' : Char) ∈ s) :
    (extnameL s).drop 1 =
      (s.reverse.takeWhile (fun c => !(c == ('.' : Char)))).reverse := by
  obtain ⟨r1, r2, hr, hnr1⟩ :=
    mem_split_first s.reverse (by simpa [List.mem_reverse] using hdot)
  have hlast : s.reverse.getLast? = s.head? := List.getLast?_reverse s
  have hr2ne : r2 ≠ [] := by
    intro h2
    subst h2
    rw [hr, List.getLast?_concat] at hlast
    exact hhead hlast.symm
  obtain ⟨cl, hcl⟩ : ∃ cl, r2.getLast? = some cl := by
    cases hq : r2.getLast? with
    | none => exact absurd (List.getLast?_eq_none_iff.mp hq) hr2ne
    | some c => exact ⟨c, rfl⟩
  have hglr : some cl = s.head? := by
    rw [hr, List.getLast?_append] at hlast
    obtain ⟨y, ys, rfl⟩ := List.exists_cons_of_ne_nil hr2ne
    rw [List.getLast?_cons_cons, hcl] at hlast
    exact hlast
  have hcl2 : (cl == ('.' : Char)) = false := by
    apply beq_eq_false_iff_ne.mpr
    intro e
    exact hhead (by rw [← hglr, e])
  have hlen : s.length = r1.length + r2.length + 1 := by
    have h2 := congrArg List.length hr
    simp only [List.length_reverse, List.length_append, List.length_cons] at h2
    omega
  have hscan := extScan_of_dot s r1 r2 cl hr hnr1 hslash hcl hcl2
  unfold extnameL
  rw [hscan]
  simp only [extNoneCond,
    show ((-1 : Int) == (0:Int)) = false from by decide,
    show ((-1 : Int) == (1:Int)) = false from by decide,
    Bool.false_or, Bool.false_and, Bool.false_eq_true, if_false]
  rw [List.take_of_length_le (by simp [List.length_drop]), List.drop_drop]
  have hs2 : s = (r2.reverse ++ [('.' : Char)]) ++ r1.reverse := by
    have h3 := congrArg List.reverse hr
    rw [List.reverse_reverse] at h3
    rw [h3, List.reverse_append, List.reverse_cons]
  have hL : List.drop (r2.length + 1) s = r1.reverse := by
    rw [hs2]
    rw [show r2.length + 1 = (r2.reverse ++ [('.' : Char)]).length from by simp]
    exact List.drop_left _ _
  have hR : s.reverse.takeWhile (fun c => !(c == ('.' : Char))) = r1 := by
    rw [hr]
    apply takeWhile_app
    · intro c hc
      have hne : c ≠ ('.' : Char) := fun e => hnr1 (e ▸ hc)
      simp [beq_eq_false_iff_ne.mpr hne]
    · simp
  rw [hL, hR]

/-- The inner try body always begins with the job-creation call. -/
lemma innerBody_head (env : Env) (f : StagedFile) (ofmt : String) :
    (innerBody env f ofmt).1.head? =
      some (Ev.call (CallKind.createJob f.originalname
        (inputFormatOf f.originalname) ofmt)) := by
  unfold innerBody
  cases hcj : env.createJob with
  | error e => try simp only [hcj]
               rfl
  | ok body =>
    try simp only [hcj]
    by_cases hid : jobIdTruthy body = true
    · simp only [hid, Bool.not_true, Bool.false_eq_true, if_false]
      cases hu2 : (uploadLoop env 120 0).2 with
      | error e => simp [hu2]
      | ok ut =>
        simp only [hu2]
        by_cases hv : uploadTaskValid ut = true
        · simp only [hv, Bool.not_true, Bool.false_eq_true, if_false]
          cases hpost : env.uploadPostResp with
          | error e => simp [hpost]
          | ok u => simp [hpost]
        · simp [hv]
    · simp [hid]

/-- C9 (amended): whenever a file is staged with a usable output
format and credential, a job-creation request is sent first, carrying
`input_format` equal to Node's extname of the client-supplied original
filename with its leading dot removed.  For every filename with no dot
this is the empty string (and the request is still sent); for every
nonempty filename containing no path separator and not beginning with
a dot, it equals the substring after the last dot.  (Filenames whose
basename's only dot is its leading character — e.g. `.gitignore` —
yield the empty string, not the suffix after the dot.) -/
theorem inputFormat_extension_and_sent (req : Req) (env : Env) (f : StagedFile)
    (hf : req.file = some f) (hof : jsTruthy req.outputFormat = true)
    (hkey : jsTruthy env.apiKey = true) :
    (convertFile req env).head? =
      some (Ev.call (CallKind.createJob f.originalname
        (inputFormatOf f.originalname) (req.outputFormat.getD ""))) ∧
    (('.' : Char) ∉ f.originalname.data → inputFormatOf f.originalname = "") ∧
    (f.originalname.data ≠ [] → ('/' : Char) ∉ f.originalname.data →
      f.originalname.data.head? ≠ some ('.' : Char) →
      inputFormatOf f.originalname = specAfterLastDot f.originalname) := by
  refine ⟨?_, ?_, ?_⟩
  · unfold convertFile
    rw [hf]
    simp only [hof, hkey, Bool.not_true, Bool.false_eq_true, if_false]
    unfold catchWrap
    have hh := innerBody_head env f (req.outputFormat.getD "")
    cases h2 : (innerBody env f (req.outputFormat.getD "")).2 with
    | some e =>
      try simp only [h2]
      rcases hx : (innerBody env f (req.outputFormat.getD "")).1 with _ | ⟨a, x⟩
      · rw [hx] at hh
        simp at hh
      · rw [hx] at hh
        simp only [List.head?_cons, Option.some.injEq] at hh
        simp [hx, hh]
    | none =>
      try simp only [h2]
      exact hh
  · intro hnd
    unfold inputFormatOf
    rw [extnameL_no_dot _ hnd]
    rfl
  · intro hne hns hnh
    unfold inputFormatOf specAfterLastDot
    by_cases hdot : ('.' : Char) ∈ f.originalname.data
    · simp only [hdot, if_true]
      rw [extnameL_drop_of_dot _ hne hns hnh hdot]
    · simp only [hdot, if_false]
      rw [extnameL_no_dot _ hdot]
      rfl

theorem inputFormat_extension_and_sent_witness :
    (convertFile reqW envW).head? =
      some (Ev.call (CallKind.createJob fW.originalname
        (inputFormatOf fW.originalname) (reqW.outputFormat.getD ""))) ∧
    (('.' : Char) ∉ fW.originalname.data → inputFormatOf fW.originalname = "") ∧
    (fW.originalname.data ≠ [] → ('/' : Char) ∉ fW.originalname.data →
      fW.originalname.data.head? ≠ some ('.' : Char) →
      inputFormatOf fW.originalname = specAfterLastDot fW.originalname) :=
  inputFormat_extension_and_sent reqW envW fW rfl rfl rfl

/-- Staged file whose original name is a leading-dot name. -/
def fDot : StagedFile := ⟨"/tmp/u1", ".gitignore", "application/octet-stream"⟩

/-- Request staging `.gitignore`. -/
def reqDot : Req := ⟨some fDot, some ("pdf")⟩

/-- C9 counterexample: for the original filename `.gitignore` the
job-creation request is sent with `input_format` equal to the empty
string, while the substring after the filename's last dot is
`gitignore` — the two differ, refuting the claim as stated. -/
theorem inputFormat_counterexample :
    (convertFile reqDot envW).head? =
      some (Ev.call (CallKind.createJob (".gitignore") ("") ("pdf"))) ∧
    specAfterLastDot (".gitignore") = ("gitignore") ∧
    inputFormatOf (".gitignore") ≠ specAfterLastDot (".gitignore") := by
  refine ⟨?_, ?_, ?_⟩ <;> decide
